import Mathlib

/-!
Verification of the ALIZE feature-statistics accumulator (`FrameAccGD`)
and of the exception facility (`Exception.cpp`).

The repository ships only the header `FrameAccGD.h` (declarations of
`accumulate`, `deaccumulate`, `getCovVect`, `getStdVect`, `add`, `computeAll`
and the fields `_xaccVect`, `_covVect`, `_stdVect`); the method bodies
(`FrameAccGD.cpp`, and the base class `FrameAcc`) are not part of the
sources.  The accumulator is therefore modelled from the specification:
exact rational arithmetic stands in for IEEE doubles, `Real.sqrt` for
`sqrt`, and errors are returned as explicit values (the C++ code raises
typed exceptions).  Operations are state transformers returning the new
state together with an optional error; on error the input state is
returned unchanged (the spec's check-then-mutate discipline).

`Exception.cpp` is present in the sources and is embedded directly:
`stackTrace`, the `Exception` / `IOException` / `EOFException`
constructors and `toString`.  Platform effects (`readlink`, `getpid`,
`popen gdb`) are abstracted into a `TraceEnv` record of their results.
-/

/-- Modelled from the spec: the error kinds the accumulator raises
(spec section 6: DimensionMismatch, EmptyAccumulatorRead, CountUnderflow).
In the C++ code these are exceptions from `Exception.h`. -/
inductive AccError where
  | dimensionMismatch
  | emptyAccumulatorRead
  | countUnderflow
  deriving DecidableEq

/-- Modelled from the spec: the state of a diagonal-Gaussian accumulator
(`FrameAccGD` in `FrameAccGD.h`, bodies missing from the sources).
`count` and `accVect` are the base-class sufficient statistics,
`xaccVect` is the running sum of squares (`_xaccVect`), `covVect` and
`stdVect` are lazily cached derived vectors with one stale/fresh flag
each (spec section 4.2).  The standard-deviation cache is represented by
the squares of its entries (a list of rationals); the getter applies
`Real.sqrt` on the way out. -/
structure FrameAccGD where
  count : Nat
  dimension : Nat
  accVect : List ℚ
  xaccVect : List ℚ
  covComputed : Bool
  stdComputed : Bool
  covVect : List ℚ
  stdSqVect : List ℚ
  deriving DecidableEq

/-- Modelled from the spec: a freshly constructed accumulator of fixed
dimensionality `d`: zero count, all-zero running sums, both derived
caches stale (spec sections 3 and 4.2). -/
def FrameAccGD.init (d : Nat) : FrameAccGD :=
  ⟨0, d, List.replicate d 0, List.replicate d 0, false, false,
    List.replicate d 0, List.replicate d 0⟩

/-- Modelled from the spec: `accumulate(vector)` — checks the dimension,
then `count += 1`, `sumVect[i] += vector[i]`,
`sumSquareVect[i] += vector[i]²`, and marks both derived caches stale
(spec sections 4.1 and 4.2).  On a dimension mismatch the state is
returned unchanged with an error. -/
def FrameAccGD.accumulate (s : FrameAccGD) (f : List ℚ) :
    FrameAccGD × Option AccError :=
  if f.length ≠ s.dimension then (s, some AccError.dimensionMismatch)
  else
    ({ s with
        count := s.count + 1,
        accVect := List.zipWith (fun a x => a + x) s.accVect f,
        xaccVect := List.zipWith (fun a x => a + x * x) s.xaccVect f,
        covComputed := false,
        stdComputed := false }, none)

/-- Modelled from the spec: `deaccumulate(vector)` — the exact algebraic
inverse of accumulate: `count -= 1`, `sumVect[i] -= vector[i]`,
`sumSquareVect[i] -= vector[i]²`; fails with a count underflow when
`count` would go negative, and with a dimension mismatch on a wrong
length; both failures leave the state unchanged (spec sections 4.1, 4.2
and 7). -/
def FrameAccGD.deaccumulate (s : FrameAccGD) (f : List ℚ) :
    FrameAccGD × Option AccError :=
  if f.length ≠ s.dimension then (s, some AccError.dimensionMismatch)
  else if s.count = 0 then (s, some AccError.countUnderflow)
  else
    ({ s with
        count := s.count - 1,
        accVect := List.zipWith (fun a x => a - x) s.accVect f,
        xaccVect := List.zipWith (fun a x => a - x * x) s.xaccVect f,
        covComputed := false,
        stdComputed := false }, none)

/-- Modelled from the spec: `add(other)` (`merge` in the spec) — combines
the running totals of two accumulators of equal dimensionality:
`count += other.count`, `sumVect[i] += other.sumVect[i]`,
`sumSquareVect[i] += other.sumSquareVect[i]`, and marks both derived
caches stale; fails on a dimensionality mismatch leaving the state
unchanged (spec section 4.2). -/
def FrameAccGD.add (s other : FrameAccGD) : FrameAccGD × Option AccError :=
  if other.dimension ≠ s.dimension then (s, some AccError.dimensionMismatch)
  else
    ({ s with
        count := s.count + other.count,
        accVect := List.zipWith (fun a b => a + b) s.accVect other.accVect,
        xaccVect := List.zipWith (fun a b => a + b) s.xaccVect other.xaccVect,
        covComputed := false,
        stdComputed := false }, none)

/-- Modelled from the spec: the mean vector `sumVect[i] / count`
(spec section 4.1). -/
def FrameAccGD.meanOf (s : FrameAccGD) : List ℚ :=
  s.accVect.map (fun a => a / (s.count : ℚ))

/-- Modelled from the spec: the single-pass covariance formula
`sumSquareVect[i]/count - (sumVect[i]/count)²` (spec section 4.2),
before the clamp. -/
def FrameAccGD.rawCovOf (s : FrameAccGD) : List ℚ :=
  List.zipWith
    (fun q a => q / (s.count : ℚ) - (a / (s.count : ℚ)) * (a / (s.count : ℚ)))
    s.xaccVect s.accVect

/-- Modelled from the spec: the covariance vector after the required
edge-case policy — a negative entry (floating-point cancellation in the
original) is clamped to zero (spec sections 4.2 and 8). -/
def FrameAccGD.covOf (s : FrameAccGD) : List ℚ :=
  s.rawCovOf.map (fun c => if c < 0 then 0 else c)

/-- Modelled from the spec: `getMeanVect()` — returns `sumVect[i]/count`,
fails when `count == 0` (spec section 4.1). -/
def FrameAccGD.getMeanVect (s : FrameAccGD) : Except AccError (List ℚ) :=
  if s.count = 0 then Except.error AccError.emptyAccumulatorRead
  else Except.ok s.meanOf

/-- Modelled from the spec: `getCovVect()` — fails on an empty
accumulator; on a stale cache recomputes the covariance vector, stores
it and marks it fresh; on a fresh cache returns the cached vector
(spec section 4.2). -/
def FrameAccGD.getCovVect (s : FrameAccGD) :
    Except AccError (List ℚ) × FrameAccGD :=
  if s.count = 0 then (Except.error AccError.emptyAccumulatorRead, s)
  else if s.covComputed then (Except.ok s.covVect, s)
  else (Except.ok s.covOf, { s with covVect := s.covOf, covComputed := true })

/-- Modelled from the spec: the standard-deviation entries are the square
roots of the (clamped, hence nonnegative) cached squares. -/
noncomputable def stdOfSq (l : List ℚ) : List ℝ :=
  l.map (fun c : ℚ => Real.sqrt (c : ℝ))

/-- Modelled from the spec: `getStdVect()` — fails on an empty
accumulator; on a stale cache recomputes `std[i] = sqrt(cov[i])` from the
clamped covariance, stores it and marks it fresh; on a fresh cache
returns the cached vector (spec section 4.2). -/
noncomputable def FrameAccGD.getStdVect (s : FrameAccGD) :
    Except AccError (List ℝ) × FrameAccGD :=
  if s.count = 0 then (Except.error AccError.emptyAccumulatorRead, s)
  else if s.stdComputed then (Except.ok (stdOfSq s.stdSqVect), s)
  else (Except.ok (stdOfSq s.covOf),
        { s with stdSqVect := s.covOf, stdComputed := true })

/-- Accumulate a whole stream of feature vectors, left to right. -/
def FrameAccGD.accAll (s : FrameAccGD) (vs : List (List ℚ)) : FrameAccGD :=
  vs.foldl (fun t v => (t.accumulate v).1) s

/-- Deaccumulate a whole stream of feature vectors, left to right. -/
def FrameAccGD.deaccAll (s : FrameAccGD) (vs : List (List ℚ)) : FrameAccGD :=
  vs.foldl (fun t v => (t.deaccumulate v).1) s

/-- Sum of the i-th components of a stream of vectors. -/
def sumAt (vs : List (List ℚ)) (i : Nat) : ℚ :=
  (vs.map (fun v => v.getD i 0)).sum

/-- Sum of the squared i-th components of a stream of vectors. -/
def sumSqAt (vs : List (List ℚ)) (i : Nat) : ℚ :=
  (vs.map (fun v => v.getD i 0 * v.getD i 0)).sum

/-- Well-formedness: the running-sum vectors have the declared
dimensionality. -/
def FrameAccGD.WF (s : FrameAccGD) : Prop :=
  s.accVect.length = s.dimension ∧ s.xaccVect.length = s.dimension

/-- Cache coherence: a cache marked fresh holds the value that a
recomputation from the current sufficient statistics would produce. -/
def FrameAccGD.CacheOK (s : FrameAccGD) : Prop :=
  (s.covComputed = true → s.covVect = s.covOf) ∧
  (s.stdComputed = true → s.stdSqVect = s.covOf)

instance (s : FrameAccGD) : Decidable s.WF := by
  unfold FrameAccGD.WF; infer_instance

instance (s : FrameAccGD) : Decidable s.CacheOK := by
  unfold FrameAccGD.CacheOK; infer_instance

/-- States reachable from a freshly constructed accumulator through the
public operations. -/
inductive FrameAccGD.Reachable : FrameAccGD → Prop where
  | init (d : Nat) : FrameAccGD.Reachable (FrameAccGD.init d)
  | accumulate {s s' : FrameAccGD} {f : List ℚ} :
      FrameAccGD.Reachable s → (s.accumulate f).1 = s' → FrameAccGD.Reachable s'
  | deaccumulate {s s' : FrameAccGD} {f : List ℚ} :
      FrameAccGD.Reachable s → (s.deaccumulate f).1 = s' → FrameAccGD.Reachable s'
  | add {s t s' : FrameAccGD} :
      FrameAccGD.Reachable s → FrameAccGD.Reachable t → (s.add t).1 = s' →
      FrameAccGD.Reachable s'
  | getCov {s s' : FrameAccGD} :
      FrameAccGD.Reachable s → s.getCovVect.2 = s' → FrameAccGD.Reachable s'
  | getStd {s s' : FrameAccGD} :
      FrameAccGD.Reachable s → s.getStdVect.2 = s' → FrameAccGD.Reachable s'

/-- The outside-world inputs of `Exception::stackTrace`
(`src/src/Exception.cpp`, lines 114-161): the platform (`#ifdef WIN32`),
the result of `readlink("/proc/self/exe", ...)`, `getpid()`, and the
lines read from the `popen`-ed gdb command. -/
structure TraceEnv where
  isWindows : Bool
  exePath : String
  pid : Int
  gdbOutput : List String

/-- The fixed text `stackTrace` produces on Windows
(`Exception.cpp`, line 134). -/
def winNotice : String :=
  " *** Exception::stackTrace() uses gdb and GNU/Linux' /proc fs which are unavailable on Windows - won't trace the stack.\n"

/-- The header put in front of the captured gdb output
(`Exception.cpp`, line 146). -/
def gdbHeader : String := "stack trace by GDB ["

/-- `Exception::stackTrace(callerName)` (`Exception.cpp`, lines 114-161):
returns the empty string for caller `EOFException`; otherwise the
Windows notice, or the gdb header (with the command line) followed by
the captured gdb output. -/
def stackTrace (env : TraceEnv) (callerName : String) : String :=
  if callerName = "EOFException" then ""
  else if env.isWindows then winNotice
  else
    gdbHeader ++ (("gdb -batch -ex=bt " ++ env.exePath ++ " " ++ toString env.pid)
      ++ "]\n" ++ String.join env.gdbOutput)

/-- The data members of `alize::Exception`
(`Exception.cpp`, lines 64-75). -/
structure ExceptionS where
  msg : String
  sourceFile : String
  line : Int
  trace : String
  deriving DecidableEq

/-- The `Exception(msg, sourceFile, line, callerName)` constructor
(`Exception.cpp`, lines 71-72): stores the three fields and a trace
built by `stackTrace(callerName)`. -/
def exceptionMk (env : TraceEnv) (msg sourceFile : String) (line : Int)
    (callerName : String) : ExceptionS :=
  ⟨msg, sourceFile, line, stackTrace env callerName⟩

/-- `Exception::toString()` (`Exception.cpp`, lines 77-84).  The header
contributed by `Object::toString()` (whose source is not in the
repository) is passed in as `objHeader`. -/
def exceptionToString (objHeader : String) (e : ExceptionS) : String :=
  e.trace ++ objHeader
    ++ "\n  message   = \"" ++ e.msg ++ "\""
    ++ "\n  source file = " ++ e.sourceFile
    ++ "\n  line number = " ++ toString e.line

/-- The data members of `alize::IOException`: the base `Exception` plus
`fileName` (`Exception.cpp`, lines 195-211). -/
structure IOExceptionS extends ExceptionS where
  fileName : String
  deriving DecidableEq

/-- The primary `IOException(msg, sourceFile, line, f)` constructor
(`Exception.cpp`, lines 195-197): base built with caller name
`IOException` (its `getClassName()`), and `fileName` set to `f`. -/
def ioExceptionMk (env : TraceEnv) (msg sourceFile : String) (line : Int)
    (f : String) : IOExceptionS :=
  { toExceptionS := exceptionMk env msg sourceFile line "IOException",
    fileName := f }

/-- The `IOException(msg, sourceFile, line, f, callerName)` constructor
used by derived classes (`Exception.cpp`, lines 199-201). -/
def ioExceptionMk5 (env : TraceEnv) (msg sourceFile : String) (line : Int)
    (f : String) (callerName : String) : IOExceptionS :=
  { toExceptionS := exceptionMk env msg sourceFile line callerName,
    fileName := f }

/-- The `IOException(const IOException&)` copy constructor
(`Exception.cpp`, lines 203-204): forwards `msg`, `sourceFile` and
`line` to the base, but its initialization list omits `fileName`, which
is therefore default-initialized to the empty string. -/
def ioExceptionCopy (env : TraceEnv) (e : IOExceptionS) : IOExceptionS :=
  { toExceptionS := exceptionMk env e.msg e.sourceFile e.line "IOException",
    fileName := "" }

/-- `IOException::toString()` (`Exception.cpp`, lines 206-207). -/
def ioExceptionToString (objHeader : String) (e : IOExceptionS) : String :=
  exceptionToString objHeader e.toExceptionS ++ "\n  fileName =  " ++ e.fileName

/-- The `EOFException(msg, sourceFile, line, f)` constructor
(`Exception.cpp`, lines 324-326): delegates to the five-argument
`IOException` constructor with caller name `EOFException`
(its `getClassName()`). -/
def eofExceptionMk (env : TraceEnv) (msg sourceFile : String) (line : Int)
    (f : String) : IOExceptionS :=
  ioExceptionMk5 env msg sourceFile line f "EOFException"

/-! ### Helper lemmas on lists -/

theorem getD_zipWith (f : ℚ → ℚ → ℚ) (hf : f 0 0 = 0) (a b : List ℚ)
    (h : a.length = b.length) (i : Nat) :
    (List.zipWith f a b).getD i 0 = f (a.getD i 0) (b.getD i 0) := by
  by_cases hi : i < a.length
  · have hz : i < (List.zipWith f a b).length := by
      rw [List.length_zipWith]; omega
    rw [List.getD_eq_getElem _ _ hz, List.getD_eq_getElem _ _ hi,
      List.getD_eq_getElem _ _ (show i < b.length by omega)]
    exact List.getElem_zipWith ..
  · have hz : (List.zipWith f a b).length ≤ i := by
      rw [List.length_zipWith]; omega
    rw [List.getD_eq_default _ _ hz, List.getD_eq_default _ _ (by omega),
      List.getD_eq_default _ _ (show b.length ≤ i by omega), hf]

theorem getD_map_zero {β : Type} (f : ℚ → β) (dflt : β) (hf : f 0 = dflt)
    (l : List ℚ) (i : Nat) :
    (l.map f).getD i dflt = f (l.getD i 0) := by
  by_cases hi : i < l.length
  · rw [List.getD_eq_getElem _ _ (by simpa using hi),
      List.getD_eq_getElem _ _ hi, List.getElem_map]
  · rw [List.getD_eq_default _ _ (by simpa using not_lt.mp hi),
      List.getD_eq_default _ _ (not_lt.mp hi), hf]

theorem getD_replicate_zero (d i : Nat) :
    (List.replicate d (0 : ℚ)).getD i 0 = 0 := by
  by_cases hi : i < d
  · rw [List.getD_eq_getElem _ _ (by simpa using hi)]
    exact List.getElem_replicate ..
  · exact List.getD_eq_default _ _ (by simpa using not_lt.mp hi)

theorem zipWith_sub_zipWith_add (g : ℚ → ℚ) :
    ∀ (a f : List ℚ), a.length = f.length →
      List.zipWith (fun p x => p - g x)
        (List.zipWith (fun p x => p + g x) a f) f = a := by
  intro a
  induction a with
  | nil => intro f _; simp
  | cons p ps ih =>
    intro f hf
    cases f with
    | nil => simp at hf
    | cons x xs =>
      simp only [List.zipWith_cons_cons, add_sub_cancel_right, List.cons.injEq]
      exact ⟨trivial, ih xs (by simpa using hf)⟩

/-! ### Cauchy–Schwarz for the single-pass variance formula -/

theorem sq_sum_step (n s q x : ℚ) (hn : 0 ≤ n) (hq : 0 ≤ q)
    (hs : s * s ≤ n * q) :
    (x + s) * (x + s) ≤ (n + 1) * (x * x + q) := by
  rcases eq_or_lt_of_le hn with h0 | hpos
  · have hs0 : s = 0 := by nlinarith [sq_nonneg s]
    subst hs0
    nlinarith
  · have key : 0 ≤ n * (n * x * x + q - 2 * s * x) := by
      nlinarith [sq_nonneg (n * x - s)]
    have hA : 0 ≤ n * x * x + q - 2 * s * x :=
      nonneg_of_mul_nonneg_right key hpos
    nlinarith

theorem sum_sq_bounds (l : List ℚ) :
    0 ≤ (l.map (fun x => x * x)).sum ∧
    l.sum * l.sum ≤ (l.length : ℚ) * (l.map (fun x => x * x)).sum := by
  induction l with
  | nil => simp
  | cons x xs ih =>
    obtain ⟨hq, hs⟩ := ih
    constructor
    · simp only [List.map_cons, List.sum_cons]
      nlinarith [sq_nonneg x]
    · simp only [List.map_cons, List.sum_cons, List.length_cons]
      push_cast
      exact sq_sum_step (xs.length : ℚ) xs.sum _ x (by positivity) hq hs

/-! ### Equations for the successful operations -/

theorem accumulate_ok (s : FrameAccGD) (f : List ℚ)
    (h : f.length = s.dimension) :
    s.accumulate f =
      ({ s with
          count := s.count + 1,
          accVect := List.zipWith (fun a x => a + x) s.accVect f,
          xaccVect := List.zipWith (fun a x => a + x * x) s.xaccVect f,
          covComputed := false,
          stdComputed := false }, none) := by
  simp [FrameAccGD.accumulate, h]

theorem deaccumulate_ok (s : FrameAccGD) (f : List ℚ)
    (h : f.length = s.dimension) (hc : s.count ≠ 0) :
    s.deaccumulate f =
      ({ s with
          count := s.count - 1,
          accVect := List.zipWith (fun a x => a - x) s.accVect f,
          xaccVect := List.zipWith (fun a x => a - x * x) s.xaccVect f,
          covComputed := false,
          stdComputed := false }, none) := by
  simp [FrameAccGD.deaccumulate, h, hc]

theorem add_ok (s t : FrameAccGD) (h : t.dimension = s.dimension) :
    s.add t =
      ({ s with
          count := s.count + t.count,
          accVect := List.zipWith (fun a b => a + b) s.accVect t.accVect,
          xaccVect := List.zipWith (fun a b => a + b) s.xaccVect t.xaccVect,
          covComputed := false,
          stdComputed := false }, none) := by
  simp [FrameAccGD.add, h]

theorem sumAt_cons (v : List ℚ) (vs : List (List ℚ)) (i : Nat) :
    sumAt (v :: vs) i = v.getD i 0 + sumAt vs i := by
  simp [sumAt]

theorem sumSqAt_cons (v : List ℚ) (vs : List (List ℚ)) (i : Nat) :
    sumSqAt (v :: vs) i = v.getD i 0 * v.getD i 0 + sumSqAt vs i := by
  simp [sumSqAt]

/-! ### Statistics of accumulated and deaccumulated streams -/

theorem accAll_spec (d : Nat) (vs : List (List ℚ)) :
    ∀ s : FrameAccGD, s.dimension = d → s.WF → (∀ v ∈ vs, v.length = d) →
      (s.accAll vs).dimension = d ∧ (s.accAll vs).WF ∧
      (s.accAll vs).count = s.count + vs.length ∧
      (∀ i, (s.accAll vs).accVect.getD i 0 = s.accVect.getD i 0 + sumAt vs i) ∧
      (∀ i, (s.accAll vs).xaccVect.getD i 0 = s.xaccVect.getD i 0 + sumSqAt vs i) ∧
      (vs ≠ [] → (s.accAll vs).covComputed = false ∧
        (s.accAll vs).stdComputed = false) := by
  induction vs with
  | nil =>
    intro s hd hwf _
    refine ⟨by simpa [FrameAccGD.accAll] using hd,
      by simpa [FrameAccGD.accAll] using hwf,
      by simp [FrameAccGD.accAll], ?_, ?_, by simp⟩
    · intro i; simp [FrameAccGD.accAll, sumAt]
    · intro i; simp [FrameAccGD.accAll, sumSqAt]
  | cons v vs ih =>
    intro s hd hwf hlen
    have hv : v.length = d := hlen v (by simp)
    have hvs : ∀ w ∈ vs, w.length = d := fun w hw => hlen w (by simp [hw])
    have hfl : v.length = s.dimension := by rw [hv, hd]
    have hstep : s.accAll (v :: vs) = ((s.accumulate v).1).accAll vs := rfl
    rw [hstep, accumulate_ok s v hfl]
    have hlen1 : s.accVect.length = v.length := by rw [hwf.1, hd, hv]
    have hlen2 : s.xaccVect.length = v.length := by rw [hwf.2, hd, hv]
    obtain ⟨hw1, hw2⟩ := hwf
    have hwf' : FrameAccGD.WF { s with
        count := s.count + 1,
        accVect := List.zipWith (fun a x => a + x) s.accVect v,
        xaccVect := List.zipWith (fun a x => a + x * x) s.xaccVect v,
        covComputed := false,
        stdComputed := false } := by
      unfold FrameAccGD.WF
      constructor <;> simp [List.length_zipWith] <;> omega
    obtain ⟨h1, h2, h3, h4, h5, _⟩ :=
      ih { s with
            count := s.count + 1,
            accVect := List.zipWith (fun a x => a + x) s.accVect v,
            xaccVect := List.zipWith (fun a x => a + x * x) s.xaccVect v,
            covComputed := false,
            stdComputed := false } hd hwf' hvs
    refine ⟨h1, h2, ?_, ?_, ?_, ?_⟩
    · rw [h3]; simp; omega
    · intro i
      rw [h4 i, sumAt_cons]
      have := getD_zipWith (fun a x => a + x) (by norm_num) s.accVect v hlen1 i
      simp only at this ⊢
      rw [this]; ring
    · intro i
      rw [h5 i, sumSqAt_cons]
      have := getD_zipWith (fun a x => a + x * x) (by norm_num) s.xaccVect v hlen2 i
      simp only at this ⊢
      rw [this]; ring
    · intro _
      rcases List.eq_nil_or_concat vs with hnil | _
      · subst hnil
        simp [FrameAccGD.accAll]
      · exact (ih { s with
            count := s.count + 1,
            accVect := List.zipWith (fun a x => a + x) s.accVect v,
            xaccVect := List.zipWith (fun a x => a + x * x) s.xaccVect v,
            covComputed := false,
            stdComputed := false } hd hwf' hvs).2.2.2.2.2 (by
              rintro rfl
              simp at *)

theorem deaccAll_spec (d : Nat) (ws : List (List ℚ)) :
    ∀ s : FrameAccGD, s.dimension = d → s.WF → (∀ w ∈ ws, w.length = d) →
      ws.length ≤ s.count →
      (s.deaccAll ws).dimension = d ∧ (s.deaccAll ws).WF ∧
      (s.deaccAll ws).count = s.count - ws.length ∧
      (∀ i, (s.deaccAll ws).accVect.getD i 0 =
        s.accVect.getD i 0 - sumAt ws i) ∧
      (∀ i, (s.deaccAll ws).xaccVect.getD i 0 =
        s.xaccVect.getD i 0 - sumSqAt ws i) := by
  induction ws with
  | nil =>
    intro s hd hwf _ _
    refine ⟨by simpa [FrameAccGD.deaccAll] using hd,
      by simpa [FrameAccGD.deaccAll] using hwf,
      by simp [FrameAccGD.deaccAll], ?_, ?_⟩
    · intro i; simp [FrameAccGD.deaccAll, sumAt]
    · intro i; simp [FrameAccGD.deaccAll, sumSqAt]
  | cons w ws ih =>
    intro s hd hwf hlen hcount
    have hw : w.length = d := hlen w (by simp)
    have hws : ∀ u ∈ ws, u.length = d := fun u hu => hlen u (by simp [hu])
    have hfl : w.length = s.dimension := by rw [hw, hd]
    have hc0 : s.count ≠ 0 := by simp at hcount; omega
    have hstep : s.deaccAll (w :: ws) = ((s.deaccumulate w).1).deaccAll ws := rfl
    rw [hstep, deaccumulate_ok s w hfl hc0]
    obtain ⟨hw1, hw2⟩ := hwf
    have hlen1 : s.accVect.length = w.length := by rw [hw1, hd, hw]
    have hlen2 : s.xaccVect.length = w.length := by rw [hw2, hd, hw]
    have hwf' : FrameAccGD.WF { s with
        count := s.count - 1,
        accVect := List.zipWith (fun a x => a - x) s.accVect w,
        xaccVect := List.zipWith (fun a x => a - x * x) s.xaccVect w,
        covComputed := false,
        stdComputed := false } := by
      unfold FrameAccGD.WF
      constructor <;> simp [List.length_zipWith] <;> omega
    have hcount' : ws.length ≤ s.count - 1 := by simp at hcount; omega
    obtain ⟨h1, h2, h3, h4, h5⟩ :=
      ih { s with
            count := s.count - 1,
            accVect := List.zipWith (fun a x => a - x) s.accVect w,
            xaccVect := List.zipWith (fun a x => a - x * x) s.xaccVect w,
            covComputed := false,
            stdComputed := false } hd hwf' hws hcount'
    refine ⟨h1, h2, ?_, ?_, ?_⟩
    · rw [h3]; simp; omega
    · intro i
      rw [h4 i, sumAt_cons]
      have := getD_zipWith (fun a x => a - x) (by norm_num) s.accVect w hlen1 i
      simp only at this ⊢
      rw [this]; ring
    · intro i
      rw [h5 i, sumSqAt_cons]
      have := getD_zipWith (fun a x => a - x * x) (by norm_num) s.xaccVect w hlen2 i
      simp only at this ⊢
      rw [this]; ring

/-! ### Componentwise views of the derived vectors -/

theorem init_WF (d : Nat) : (FrameAccGD.init d).WF :=
  ⟨List.length_replicate .., List.length_replicate ..⟩

theorem meanOf_getD (s : FrameAccGD) (i : Nat) :
    s.meanOf.getD i 0 = s.accVect.getD i 0 / (s.count : ℚ) := by
  have := getD_map_zero (fun a => a / (s.count : ℚ)) 0 (by simp) s.accVect i
  simpa [FrameAccGD.meanOf] using this

theorem rawCov_getD (s : FrameAccGD) (h : s.xaccVect.length = s.accVect.length)
    (i : Nat) :
    s.rawCovOf.getD i 0 = s.xaccVect.getD i 0 / (s.count : ℚ)
      - s.accVect.getD i 0 / (s.count : ℚ) *
        (s.accVect.getD i 0 / (s.count : ℚ)) := by
  have := getD_zipWith
    (fun q a => q / (s.count : ℚ) - a / (s.count : ℚ) * (a / (s.count : ℚ)))
    (by simp) s.xaccVect s.accVect h i
  simpa [FrameAccGD.rawCovOf] using this

theorem covOf_getD (s : FrameAccGD) (i : Nat) :
    s.covOf.getD i 0 =
      if s.rawCovOf.getD i 0 < 0 then 0 else s.rawCovOf.getD i 0 := by
  have := getD_map_zero (fun c : ℚ => if c < 0 then 0 else c) 0 (by norm_num)
    s.rawCovOf i
  simpa [FrameAccGD.covOf] using this

theorem covOf_getD_nonneg (s : FrameAccGD) (i : Nat) :
    0 ≤ s.covOf.getD i 0 := by
  rw [covOf_getD]
  split
  · exact le_refl 0
  · linarith [not_lt.mp (by assumption : ¬ s.rawCovOf.getD i 0 < 0)]

theorem stdOfSq_getD (l : List ℚ) (i : Nat) :
    (stdOfSq l).getD i 0 = Real.sqrt ((l.getD i 0 : ℚ) : ℝ) := by
  have := getD_map_zero (fun c : ℚ => Real.sqrt (c : ℝ)) 0 (by simp) l i
  simpa [stdOfSq] using this

/-- On the statistics of an actually accumulated non-empty stream the
single-pass formula is nonnegative (Cauchy–Schwarz), so the clamp is
the identity there. -/
theorem stream_rawCov_nonneg (d : Nat) (vs : List (List ℚ))
    (hvs : ∀ v ∈ vs, v.length = d) (hne : vs ≠ []) (i : Nat) :
    0 ≤ ((FrameAccGD.init d).accAll vs).rawCovOf.getD i 0 := by
  obtain ⟨h1, h2, h3, h4, h5, _⟩ :=
    accAll_spec d vs (FrameAccGD.init d) rfl (init_WF d) hvs
  have hacc : ((FrameAccGD.init d).accAll vs).accVect.getD i 0 = sumAt vs i := by
    rw [h4 i]
    simp [FrameAccGD.init, getD_replicate_zero]
  have hxacc : ((FrameAccGD.init d).accAll vs).xaccVect.getD i 0 = sumSqAt vs i := by
    rw [h5 i]
    simp [FrameAccGD.init, getD_replicate_zero]
  have hcount : ((FrameAccGD.init d).accAll vs).count = vs.length := by
    rw [h3]; simp [FrameAccGD.init]
  have hlen : ((FrameAccGD.init d).accAll vs).xaccVect.length =
      ((FrameAccGD.init d).accAll vs).accVect.length := by
    rw [h2.1, h2.2]
  rw [rawCov_getD _ hlen i, hacc, hxacc, hcount]
  obtain ⟨hq, hs⟩ := sum_sq_bounds (vs.map (fun v => v.getD i 0))
  have hsum : (vs.map (fun v => v.getD i 0)).sum = sumAt vs i := rfl
  have hsq : ((vs.map (fun v => v.getD i 0)).map (fun x => x * x)).sum =
      sumSqAt vs i := by
    rw [List.map_map]; rfl
  have hlenm : ((vs.map (fun v => v.getD i 0)).length : ℚ) = (vs.length : ℚ) := by
    rw [List.length_map]
  rw [hsum, hsq, hlenm] at hs
  rw [hsq] at hq
  have hpos : (0 : ℚ) < (vs.length : ℚ) := by
    have := List.length_pos.mpr hne
    exact_mod_cast this
  rw [sub_nonneg, div_mul_div_comm, div_le_div_iff₀ (by positivity) hpos]
  nlinarith

/-! ### The cache-coherence invariant over reachable states -/

theorem reachable_cacheOK : ∀ {s : FrameAccGD}, s.Reachable → s.CacheOK := by
  intro s h
  induction h with
  | init d =>
    refine ⟨?_, ?_⟩ <;> intro hb <;> simp [FrameAccGD.init] at hb
  | accumulate hs heq ih =>
    subst heq
    unfold FrameAccGD.accumulate
    split
    · exact ih
    · refine ⟨?_, ?_⟩ <;> intro hb <;> simp at hb
  | deaccumulate hs heq ih =>
    subst heq
    unfold FrameAccGD.deaccumulate
    split
    · exact ih
    · split
      · exact ih
      · refine ⟨?_, ?_⟩ <;> intro hb <;> simp at hb
  | add hs ht heq ihs iht =>
    subst heq
    unfold FrameAccGD.add
    split
    · exact ihs
    · refine ⟨?_, ?_⟩ <;> intro hb <;> simp at hb
  | getCov hs heq ih =>
    subst heq
    unfold FrameAccGD.getCovVect
    split
    · exact ih
    · split
      · exact ih
      · refine ⟨?_, ?_⟩
        · intro _; rfl
        · intro hb
          exact ih.2 (by simpa using hb)
  | getStd hs heq ih =>
    subst heq
    unfold FrameAccGD.getStdVect
    split
    · exact ih
    · split
      · exact ih
      · refine ⟨?_, ?_⟩
        · intro hb
          exact ih.1 (by simpa using hb)
        · intro _; rfl

/-! ### The claims -/

/-- Claim C1: for every accumulator holding a non-empty accumulated
stream, `getMeanVect()` succeeds and returns the sequence
`sumVect[i] / count`, which equals the arithmetic mean of the i-th
components of the accumulated vectors for every dimension; on an empty
accumulator the call fails with an explicit error instead of dividing
by zero. -/
theorem getMeanVect_spec (d : Nat) (vs : List (List ℚ)) (s : FrameAccGD)
    (hvs : ∀ v ∈ vs, v.length = d) (hne : vs ≠ [])
    (hs : s = (FrameAccGD.init d).accAll vs) :
    0 < s.count ∧
    s.getMeanVect = Except.ok s.meanOf ∧
    (∀ i, s.meanOf.getD i 0 = s.accVect.getD i 0 / (s.count : ℚ)) ∧
    (∀ i, s.meanOf.getD i 0 = sumAt vs i / (vs.length : ℚ)) ∧
    (∀ t : FrameAccGD, t.count = 0 →
      t.getMeanVect = Except.error AccError.emptyAccumulatorRead) := by
  subst hs
  obtain ⟨h1, h2, h3, h4, h5, _⟩ :=
    accAll_spec d vs (FrameAccGD.init d) rfl (init_WF d) hvs
  have hcount : ((FrameAccGD.init d).accAll vs).count = vs.length := by
    rw [h3]; simp [FrameAccGD.init]
  have hpos : 0 < vs.length := List.length_pos.mpr hne
  have hacc : ∀ i, ((FrameAccGD.init d).accAll vs).accVect.getD i 0 = sumAt vs i := by
    intro i
    rw [h4 i]
    simp [FrameAccGD.init, getD_replicate_zero]
  refine ⟨by omega, ?_, fun i => meanOf_getD _ i, ?_, ?_⟩
  · have : ((FrameAccGD.init d).accAll vs).count ≠ 0 := by omega
    simp [FrameAccGD.getMeanVect, this]
  · intro i
    rw [meanOf_getD _ i, hacc i, hcount]
  · intro t ht
    simp [FrameAccGD.getMeanVect, ht]

theorem getMeanVect_spec_witness :
    ((∀ v ∈ [[(2:ℚ),4],[4,8],[6,12]], v.length = 2) ∧
      ([[(2:ℚ),4],[4,8],[6,12]] : List (List ℚ)) ≠ []) ∧
    ((FrameAccGD.init 2).accAll [[(2:ℚ),4],[4,8],[6,12]]).getMeanVect =
      Except.ok ((FrameAccGD.init 2).accAll [[(2:ℚ),4],[4,8],[6,12]]).meanOf ∧
    ((FrameAccGD.init 2).accAll [[(2:ℚ),4],[4,8],[6,12]]).meanOf = [4, 8] :=
  ⟨⟨by decide, by decide⟩,
    (getMeanVect_spec 2 [[(2:ℚ),4],[4,8],[6,12]] _ (by decide) (by decide) rfl).2.1,
    by norm_num [FrameAccGD.accAll, FrameAccGD.accumulate, FrameAccGD.init,
      FrameAccGD.meanOf, List.replicate, List.zipWith]⟩

/-- Claim C2: on the statistics of a non-empty accumulated stream,
`getCovVect()` recomputes the stale cache as
`cov[i] = sumSquareVect[i]/count - (sumVect[i]/count)²` for every
dimension, stores it and marks it fresh; on an empty accumulator the
call fails. -/
theorem getCovVect_spec (d : Nat) (vs : List (List ℚ)) (s : FrameAccGD)
    (hvs : ∀ v ∈ vs, v.length = d) (hne : vs ≠ [])
    (hs : s = (FrameAccGD.init d).accAll vs) :
    s.covComputed = false ∧
    s.getCovVect.1 = Except.ok s.covOf ∧
    s.getCovVect.2.covComputed = true ∧
    s.getCovVect.2.covVect = s.covOf ∧
    (∀ i, s.covOf.getD i 0 =
      s.xaccVect.getD i 0 / (s.count : ℚ)
        - s.accVect.getD i 0 / (s.count : ℚ) *
          (s.accVect.getD i 0 / (s.count : ℚ))) ∧
    (∀ t : FrameAccGD, t.count = 0 →
      t.getCovVect = (Except.error AccError.emptyAccumulatorRead, t)) := by
  obtain ⟨h1, h2, h3, h4, h5, h6⟩ :=
    accAll_spec d vs (FrameAccGD.init d) rfl (init_WF d) hvs
  have hflag : s.covComputed = false := by rw [hs]; exact (h6 hne).1
  have hcount : s.count = vs.length := by
    rw [hs, h3]; simp [FrameAccGD.init]
  have hpos : 0 < vs.length := List.length_pos.mpr hne
  have hc0 : s.count ≠ 0 := by omega
  have hlen : s.xaccVect.length = s.accVect.length := by
    rw [hs, h2.1, h2.2]
  refine ⟨hflag, ?_, ?_, ?_, ?_, ?_⟩
  · simp [FrameAccGD.getCovVect, hc0, hflag]
  · simp [FrameAccGD.getCovVect, hc0, hflag]
  · simp [FrameAccGD.getCovVect, hc0, hflag]
  · intro i
    have hnn : 0 ≤ s.rawCovOf.getD i 0 := by
      rw [hs]; exact stream_rawCov_nonneg d vs hvs hne i
    rw [covOf_getD, if_neg (not_lt.mpr hnn), rawCov_getD _ hlen i]
  · intro t ht
    simp [FrameAccGD.getCovVect, ht]

theorem getCovVect_spec_witness :
    ((∀ v ∈ [[(2:ℚ),4],[4,8],[6,12]], v.length = 2) ∧
      ([[(2:ℚ),4],[4,8],[6,12]] : List (List ℚ)) ≠ []) ∧
    ((FrameAccGD.init 2).accAll [[(2:ℚ),4],[4,8],[6,12]]).getCovVect.1 =
      Except.ok ((FrameAccGD.init 2).accAll [[(2:ℚ),4],[4,8],[6,12]]).covOf ∧
    ((FrameAccGD.init 2).accAll [[(2:ℚ),4],[4,8],[6,12]]).covOf = [8/3, 32/3] :=
  ⟨⟨by decide, by decide⟩,
    (getCovVect_spec 2 [[(2:ℚ),4],[4,8],[6,12]] _ (by decide) (by decide) rfl).2.1,
    by norm_num [FrameAccGD.accAll, FrameAccGD.accumulate, FrameAccGD.init,
      FrameAccGD.covOf, FrameAccGD.rawCovOf, List.replicate, List.zipWith]⟩

/-- Claim C3: on every cache-coherent accumulator with a positive count,
the covariance getter returns the clamped covariance vector — every
component nonnegative — and the standard-deviation getter returns
exactly the componentwise square root of that same vector (hence never
an undefined value). -/
theorem getStdVect_spec (s : FrameAccGD) (hC : s.CacheOK) (hn : 0 < s.count) :
    s.getCovVect.1 = Except.ok s.covOf ∧
    s.getStdVect.1 = Except.ok (stdOfSq s.covOf) ∧
    (∀ i, 0 ≤ s.covOf.getD i 0) ∧
    (∀ i, (stdOfSq s.covOf).getD i 0 =
      Real.sqrt ((s.covOf.getD i 0 : ℚ) : ℝ)) ∧
    (∀ i, 0 ≤ (stdOfSq s.covOf).getD i 0) := by
  have hc0 : s.count ≠ 0 := by omega
  refine ⟨?_, ?_, covOf_getD_nonneg s, fun i => stdOfSq_getD _ i, ?_⟩
  · unfold FrameAccGD.getCovVect
    rcases hcov : s.covComputed with hf | ht
    · simp [hc0, hcov]
    · simp [hc0, hcov, hC.1 hcov]
  · unfold FrameAccGD.getStdVect
    rcases hstd : s.stdComputed with hf | ht
    · simp [hc0, hstd]
    · simp [hc0, hstd, hC.2 hstd]
  · intro i
    rw [stdOfSq_getD]
    exact Real.sqrt_nonneg _

theorem getStdVect_spec_witness :
    (((FrameAccGD.init 2).accAll [[(1:ℚ),1],[3,5]]).CacheOK ∧
      0 < ((FrameAccGD.init 2).accAll [[(1:ℚ),1],[3,5]]).count) ∧
    ((FrameAccGD.init 2).accAll [[(1:ℚ),1],[3,5]]).getStdVect.1 =
      Except.ok (stdOfSq ((FrameAccGD.init 2).accAll [[(1:ℚ),1],[3,5]]).covOf) :=
  ⟨⟨by decide, by decide⟩,
    (getStdVect_spec ((FrameAccGD.init 2).accAll [[(1:ℚ),1],[3,5]])
      (by decide) (by decide)).2.1⟩

/-- Claim C4: deaccumulate is the exact algebraic inverse of accumulate:
an `accumulate(v)` immediately followed by `deaccumulate(v)` restores
`count`, `sumVect` and `sumSquareVect`; and accumulating a whole stream
and then deaccumulating it in any order drains the accumulator back to
zero count and all-zero running sums. -/
theorem deaccumulate_inverts_accumulate (d : Nat) (s : FrameAccGD)
    (f : List ℚ) (hwf : s.WF) (hf : f.length = s.dimension)
    (vs ws : List (List ℚ)) (hperm : vs.Perm ws)
    (hvs : ∀ v ∈ vs, v.length = d) :
    (((s.accumulate f).1.deaccumulate f).1.count = s.count ∧
     ((s.accumulate f).1.deaccumulate f).1.accVect = s.accVect ∧
     ((s.accumulate f).1.deaccumulate f).1.xaccVect = s.xaccVect) ∧
    ((((FrameAccGD.init d).accAll vs).deaccAll ws).count = 0 ∧
     (((FrameAccGD.init d).accAll vs).deaccAll ws).accVect =
       List.replicate d 0 ∧
     (((FrameAccGD.init d).accAll vs).deaccAll ws).xaccVect =
       List.replicate d 0) := by
  constructor
  · rw [accumulate_ok s f hf]
    rw [deaccumulate_ok _ f (by simpa using hf) (by simp)]
    refine ⟨by simp, ?_, ?_⟩
    · exact zipWith_sub_zipWith_add (fun x => x) s.accVect f
        (by rw [hwf.1, hf])
    · exact zipWith_sub_zipWith_add (fun x => x * x) s.xaccVect f
        (by rw [hwf.2, hf])
  · have hws : ∀ w ∈ ws, w.length = d := fun w hw =>
      hvs w (hperm.mem_iff.mpr hw)
    obtain ⟨h1, h2, h3, h4, h5, _⟩ :=
      accAll_spec d vs (FrameAccGD.init d) rfl (init_WF d) hvs
    have hcount : ((FrameAccGD.init d).accAll vs).count = vs.length := by
      rw [h3]; simp [FrameAccGD.init]
    have hlenle : ws.length ≤ ((FrameAccGD.init d).accAll vs).count := by
      rw [hcount, hperm.length_eq]
    obtain ⟨g1, g2, g3, g4, g5⟩ :=
      deaccAll_spec d ws ((FrameAccGD.init d).accAll vs) h1 h2 hws hlenle
    have hsumAt : ∀ i, sumAt ws i = sumAt vs i := by
      intro i
      unfold sumAt
      exact ((hperm.map (fun v => v.getD i 0)).sum_eq).symm
    have hsumSqAt : ∀ i, sumSqAt ws i = sumSqAt vs i := by
      intro i
      unfold sumSqAt
      exact ((hperm.map (fun v => v.getD i 0 * v.getD i 0)).sum_eq).symm
    have haccD : ∀ i,
        ((((FrameAccGD.init d).accAll vs).deaccAll ws)).accVect.getD i 0 = 0 := by
      intro i
      rw [g4 i, h4 i, hsumAt i]
      simp [FrameAccGD.init, getD_replicate_zero]
    have hxaccD : ∀ i,
        ((((FrameAccGD.init d).accAll vs).deaccAll ws)).xaccVect.getD i 0 = 0 := by
      intro i
      rw [g5 i, h5 i, hsumSqAt i]
      simp [FrameAccGD.init, getD_replicate_zero]
    refine ⟨by rw [g3, hcount, hperm.length_eq]; omega, ?_, ?_⟩
    · apply List.ext_getElem
      · rw [g2.1, g1, List.length_replicate]
      · intro i hi1 hi2
        rw [List.getElem_replicate]
        rw [← List.getD_eq_getElem _ 0 hi1]
        exact haccD i
    · apply List.ext_getElem
      · rw [g2.2, g1, List.length_replicate]
      · intro i hi1 hi2
        rw [List.getElem_replicate]
        rw [← List.getD_eq_getElem _ 0 hi1]
        exact hxaccD i

theorem deaccumulate_inverts_accumulate_witness :
    (((FrameAccGD.init 2).accumulate [5, 7]).1.deaccumulate [5, 7]).1.count =
        (FrameAccGD.init 2).count ∧
    ((((FrameAccGD.init 2).accAll [[(1:ℚ),2],[3,4]]).deaccAll
        [[(3:ℚ),4],[1,2]]).count = 0 ∧
      (((FrameAccGD.init 2).accAll [[(1:ℚ),2],[3,4]]).deaccAll
        [[(3:ℚ),4],[1,2]]).accVect = List.replicate 2 0 ∧
      (((FrameAccGD.init 2).accAll [[(1:ℚ),2],[3,4]]).deaccAll
        [[(3:ℚ),4],[1,2]]).xaccVect = List.replicate 2 0) :=
  ⟨(deaccumulate_inverts_accumulate 2 (FrameAccGD.init 2) [5, 7] (by decide)
      (by decide) [[(1:ℚ),2],[3,4]] [[(3:ℚ),4],[1,2]]
      (by constructor) (by decide)).1.1,
    (deaccumulate_inverts_accumulate 2 (FrameAccGD.init 2) [5, 7] (by decide)
      (by decide) [[(1:ℚ),2],[3,4]] [[(3:ℚ),4],[1,2]]
      (by constructor) (by decide)).2⟩

/-- Claim C5: for two well-formed accumulators of equal dimensionality,
`add` (the merge operation) sums the counts and the running total
vectors componentwise and marks both derived caches stale; when the
dimensionalities differ it fails and leaves the state unchanged. -/
theorem add_merges_totals (s t : FrameAccGD) (hs : s.WF) (ht : t.WF) :
    (t.dimension = s.dimension →
      (s.add t).2 = none ∧
      (s.add t).1.count = s.count + t.count ∧
      (∀ i, (s.add t).1.accVect.getD i 0 =
        s.accVect.getD i 0 + t.accVect.getD i 0) ∧
      (∀ i, (s.add t).1.xaccVect.getD i 0 =
        s.xaccVect.getD i 0 + t.xaccVect.getD i 0) ∧
      (s.add t).1.covComputed = false ∧
      (s.add t).1.stdComputed = false) ∧
    (t.dimension ≠ s.dimension →
      s.add t = (s, some AccError.dimensionMismatch)) := by
  constructor
  · intro hdim
    rw [add_ok s t hdim]
    refine ⟨rfl, rfl, ?_, ?_, rfl, rfl⟩
    · intro i
      have := getD_zipWith (fun a b => a + b) (by norm_num)
        s.accVect t.accVect (by rw [hs.1, ht.1, hdim]) i
      simpa using this
    · intro i
      have := getD_zipWith (fun a b => a + b) (by norm_num)
        s.xaccVect t.xaccVect (by rw [hs.2, ht.2, hdim]) i
      simpa using this
  · intro hdim
    simp [FrameAccGD.add, hdim]

theorem add_merges_totals_witness :
    ((FrameAccGD.init 2).WF ∧ (FrameAccGD.init 2).dimension =
      (FrameAccGD.init 2).dimension) ∧
    ((FrameAccGD.init 2).add (FrameAccGD.init 2)).2 = none ∧
    ((FrameAccGD.init 3).add (FrameAccGD.init 2) =
      (FrameAccGD.init 3, some AccError.dimensionMismatch)) :=
  ⟨⟨by decide, rfl⟩,
    ((add_merges_totals (FrameAccGD.init 2) (FrameAccGD.init 2)
      (by decide) (by decide)).1 rfl).1,
    (add_merges_totals (FrameAccGD.init 3) (FrameAccGD.init 2)
      (by decide) (by decide)).2 (by decide)⟩

/-- Claim C6: merge is a homomorphism over streams: accumulating a full
stream equals, in count, running totals, mean and covariance output,
accumulating two halves separately and merging with `add`. -/
theorem add_homomorphism (d : Nat) (vs ws : List (List ℚ))
    (hv : ∀ v ∈ vs, v.length = d) (hw : ∀ w ∈ ws, w.length = d)
    (A B M T : FrameAccGD)
    (hA : A = (FrameAccGD.init d).accAll vs)
    (hB : B = (FrameAccGD.init d).accAll ws)
    (hM : M = (A.add B).1)
    (hT : T = (FrameAccGD.init d).accAll (vs ++ ws)) :
    (A.add B).2 = none ∧
    M.count = T.count ∧ M.accVect = T.accVect ∧ M.xaccVect = T.xaccVect ∧
    M.meanOf = T.meanOf ∧ M.covOf = T.covOf ∧
    M.getMeanVect = T.getMeanVect ∧ M.getCovVect.1 = T.getCovVect.1 := by
  obtain ⟨a1, a2, a3, a4, a5, a6⟩ :=
    accAll_spec d vs (FrameAccGD.init d) rfl (init_WF d) hv
  obtain ⟨b1, b2, b3, b4, b5, b6⟩ :=
    accAll_spec d ws (FrameAccGD.init d) rfl (init_WF d) hw
  have hvw : ∀ u ∈ vs ++ ws, u.length = d := by
    intro u hu
    rcases List.mem_append.mp hu with h | h
    · exact hv u h
    · exact hw u h
  obtain ⟨t1, t2, t3, t4, t5, t6⟩ :=
    accAll_spec d (vs ++ ws) (FrameAccGD.init d) rfl (init_WF d) hvw
  have hdim : B.dimension = A.dimension := by rw [hA, hB, a1, b1]
  have hok := add_ok A B hdim
  have h2none : (A.add B).2 = none := by rw [hok]
  have hMc : M.count = vs.length + ws.length := by
    rw [hM, hok]
    simp only
    rw [hA, hB, a3, b3]
    simp [FrameAccGD.init]
  have hTc : T.count = vs.length + ws.length := by
    rw [hT, t3]
    simp [FrameAccGD.init]
  have hMA : M.accVect = List.zipWith (fun a b => a + b) A.accVect B.accVect := by
    rw [hM, hok]
  have hMX : M.xaccVect = List.zipWith (fun a b => a + b) A.xaccVect B.xaccVect := by
    rw [hM, hok]
  have hMaD : ∀ i, M.accVect.getD i 0 = sumAt vs i + sumAt ws i := by
    intro i
    rw [hMA]
    have := getD_zipWith (fun a b => a + b) (by norm_num)
      A.accVect B.accVect (by rw [hA, hB, a2.1, b2.1, a1, b1]) i
    simp only at this
    rw [this, hA, hB, a4 i, b4 i]
    simp [FrameAccGD.init, getD_replicate_zero]
  have hMxD : ∀ i, M.xaccVect.getD i 0 = sumSqAt vs i + sumSqAt ws i := by
    intro i
    rw [hMX]
    have := getD_zipWith (fun a b => a + b) (by norm_num)
      A.xaccVect B.xaccVect (by rw [hA, hB, a2.2, b2.2, a1, b1]) i
    simp only at this
    rw [this, hA, hB, a5 i, b5 i]
    simp [FrameAccGD.init, getD_replicate_zero]
  have hTaD : ∀ i, T.accVect.getD i 0 = sumAt vs i + sumAt ws i := by
    intro i
    rw [hT, t4 i]
    simp [FrameAccGD.init, getD_replicate_zero, sumAt]
  have hTxD : ∀ i, T.xaccVect.getD i 0 = sumSqAt vs i + sumSqAt ws i := by
    intro i
    rw [hT, t5 i]
    simp [FrameAccGD.init, getD_replicate_zero, sumSqAt]
  have hMAlen : M.accVect.length = d := by
    rw [hMA, List.length_zipWith, hA, hB, a2.1, b2.1]
    omega
  have hMXlen : M.xaccVect.length = d := by
    rw [hMX, List.length_zipWith, hA, hB, a2.2, b2.2]
    omega
  have haeq : M.accVect = T.accVect := by
    apply List.ext_getElem
    · rw [hMAlen, hT, t2.1, t1]
    · intro i hi1 hi2
      rw [← List.getD_eq_getElem _ 0 hi1, ← List.getD_eq_getElem _ 0 hi2,
        hMaD i, hTaD i]
  have hxeq : M.xaccVect = T.xaccVect := by
    apply List.ext_getElem
    · rw [hMXlen, hT, t2.2, t1]
    · intro i hi1 hi2
      rw [← List.getD_eq_getElem _ 0 hi1, ← List.getD_eq_getElem _ 0 hi2,
        hMxD i, hTxD i]
  have hceq : M.count = T.count := by rw [hMc, hTc]
  have hmean : M.meanOf = T.meanOf := by
    simp [FrameAccGD.meanOf, hceq, haeq]
  have hcov : M.covOf = T.covOf := by
    simp [FrameAccGD.covOf, FrameAccGD.rawCovOf, hceq, haeq, hxeq]
  have hMflag : M.covComputed = false := by rw [hM, hok]
  have hTflag : T.covComputed = false := by
    rcases hvsws : vs ++ ws with _ | ⟨u, us⟩
    · rw [hT, hvsws]
      simp [FrameAccGD.accAll, FrameAccGD.init]
    · rw [hT]
      exact (t6 (by rw [hvsws]; simp)).1
  refine ⟨h2none, hceq, haeq, hxeq, hmean, hcov, ?_, ?_⟩
  · simp [FrameAccGD.getMeanVect, hceq, hmean]
  · simp only [FrameAccGD.getCovVect, hceq, hMflag, hTflag, hcov,
      Bool.false_eq_true, if_false]
    split <;> rfl

theorem add_homomorphism_witness :
    ((∀ v ∈ [[(1:ℚ),1],[3,3]], v.length = 2) ∧
      (∀ w ∈ [[(5:ℚ),5]], w.length = 2)) ∧
    ((((FrameAccGD.init 2).accAll [[(1:ℚ),1],[3,3]]).add
        ((FrameAccGD.init 2).accAll [[(5:ℚ),5]])).1.count =
      ((FrameAccGD.init 2).accAll ([[(1:ℚ),1],[3,3]] ++ [[(5:ℚ),5]])).count) ∧
    ((((FrameAccGD.init 2).accAll [[(1:ℚ),1],[3,3]]).add
        ((FrameAccGD.init 2).accAll [[(5:ℚ),5]])).1.meanOf =
      ((FrameAccGD.init 2).accAll ([[(1:ℚ),1],[3,3]] ++ [[(5:ℚ),5]])).meanOf) ∧
    (((FrameAccGD.init 2).accAll [[(1:ℚ),1],[3,3]]).add
        ((FrameAccGD.init 2).accAll [[(5:ℚ),5]])).1.count = 3 ∧
    (((FrameAccGD.init 2).accAll [[(1:ℚ),1],[3,3]]).add
        ((FrameAccGD.init 2).accAll [[(5:ℚ),5]])).1.meanOf = [3, 3] :=
  ⟨⟨by decide, by decide⟩,
    (add_homomorphism 2 [[(1:ℚ),1],[3,3]] [[(5:ℚ),5]] (by decide) (by decide)
      _ _ _ _ rfl rfl rfl rfl).2.1,
    (add_homomorphism 2 [[(1:ℚ),1],[3,3]] [[(5:ℚ),5]] (by decide) (by decide)
      _ _ _ _ rfl rfl rfl rfl).2.2.2.2.1,
    by decide,
    by norm_num [FrameAccGD.accAll, FrameAccGD.accumulate, FrameAccGD.add,
      FrameAccGD.init, FrameAccGD.meanOf, List.replicate, List.zipWith]⟩

/-- Claim C7: every failing operation is atomic: dimension mismatch on
accumulate/deaccumulate/merge, count underflow on deaccumulate, and the
empty-accumulator reads each return the corresponding error immediately
together with the state exactly as it was before the call. -/
theorem error_atomicity (s t : FrameAccGD) (f : List ℚ) :
    (f.length ≠ s.dimension →
      s.accumulate f = (s, some AccError.dimensionMismatch) ∧
      s.deaccumulate f = (s, some AccError.dimensionMismatch)) ∧
    (f.length = s.dimension → s.count = 0 →
      s.deaccumulate f = (s, some AccError.countUnderflow)) ∧
    (t.dimension ≠ s.dimension →
      s.add t = (s, some AccError.dimensionMismatch)) ∧
    (s.count = 0 →
      s.getMeanVect = Except.error AccError.emptyAccumulatorRead ∧
      s.getCovVect = (Except.error AccError.emptyAccumulatorRead, s) ∧
      s.getStdVect = (Except.error AccError.emptyAccumulatorRead, s)) := by
  refine ⟨?_, ?_, ?_, ?_⟩
  · intro h
    exact ⟨by simp [FrameAccGD.accumulate, h],
      by simp [FrameAccGD.deaccumulate, h]⟩
  · intro h hc
    simp [FrameAccGD.deaccumulate, h, hc]
  · intro h
    simp [FrameAccGD.add, h]
  · intro hc
    exact ⟨by simp [FrameAccGD.getMeanVect, hc],
      by simp [FrameAccGD.getCovVect, hc],
      by simp [FrameAccGD.getStdVect, hc]⟩

theorem error_atomicity_witness :
    (([(1:ℚ)].length ≠ (FrameAccGD.init 2).dimension) ∧
      (FrameAccGD.init 2).count = 0) ∧
    (FrameAccGD.init 2).accumulate [(1:ℚ)] =
      (FrameAccGD.init 2, some AccError.dimensionMismatch) ∧
    (FrameAccGD.init 2).deaccumulate [(1:ℚ), 2] =
      (FrameAccGD.init 2, some AccError.countUnderflow) ∧
    (FrameAccGD.init 2).getMeanVect =
      Except.error AccError.emptyAccumulatorRead :=
  ⟨⟨by decide, by decide⟩,
    ((error_atomicity (FrameAccGD.init 2) (FrameAccGD.init 2) [(1:ℚ)]).1
      (by decide)).1,
    (error_atomicity (FrameAccGD.init 2) (FrameAccGD.init 2) [(1:ℚ), 2]).2.1
      (by decide) (by decide),
    ((error_atomicity (FrameAccGD.init 2) (FrameAccGD.init 2) [(1:ℚ)]).2.2.2
      (by decide)).1⟩

/-- Claim C8: the derived caches follow the stale/fresh machine: a
fresh construction starts stale, every successful mutation marks both
caches stale, and on a reachable accumulator with a positive count each
getter returns the value recomputed from the current statistics (never
an out-of-date cache) and leaves its cache fresh. -/
theorem cache_state_machine (d : Nat) (s t : FrameAccGD) (f : List ℚ)
    (hr : s.Reachable) :
    ((FrameAccGD.init d).covComputed = false ∧
      (FrameAccGD.init d).stdComputed = false) ∧
    ((s.accumulate f).2 = none →
      (s.accumulate f).1.covComputed = false ∧
      (s.accumulate f).1.stdComputed = false) ∧
    ((s.deaccumulate f).2 = none →
      (s.deaccumulate f).1.covComputed = false ∧
      (s.deaccumulate f).1.stdComputed = false) ∧
    ((s.add t).2 = none →
      (s.add t).1.covComputed = false ∧
      (s.add t).1.stdComputed = false) ∧
    (0 < s.count →
      s.getCovVect.1 = Except.ok s.covOf ∧
      s.getCovVect.2.covComputed = true ∧
      s.getCovVect.2.covVect = s.covOf ∧
      s.getStdVect.1 = Except.ok (stdOfSq s.covOf) ∧
      s.getStdVect.2.stdComputed = true ∧
      s.getStdVect.2.stdSqVect = s.covOf) := by
  have hC := reachable_cacheOK hr
  refine ⟨⟨rfl, rfl⟩, ?_, ?_, ?_, ?_⟩
  · intro h2
    by_cases hc : f.length ≠ s.dimension
    · exfalso
      simp [FrameAccGD.accumulate, hc] at h2
    · rw [accumulate_ok s f (not_not.mp hc)]
      exact ⟨rfl, rfl⟩
  · intro h2
    by_cases hc : f.length ≠ s.dimension
    · exfalso
      simp [FrameAccGD.deaccumulate, hc] at h2
    · by_cases hc0 : s.count = 0
      · exfalso
        simp [FrameAccGD.deaccumulate, not_not.mp hc, hc0] at h2
      · rw [deaccumulate_ok s f (not_not.mp hc) hc0]
        exact ⟨rfl, rfl⟩
  · intro h2
    by_cases hc : t.dimension ≠ s.dimension
    · exfalso
      simp [FrameAccGD.add, hc] at h2
    · rw [add_ok s t (not_not.mp hc)]
      exact ⟨rfl, rfl⟩
  · intro hpos
    have hc0 : s.count ≠ 0 := by omega
    refine ⟨?_, ?_, ?_, ?_, ?_, ?_⟩
    · rcases h : s.covComputed with _ | _
      · simp [FrameAccGD.getCovVect, hc0, h]
      · simp [FrameAccGD.getCovVect, hc0, h, hC.1 h]
    · rcases h : s.covComputed with _ | _
      · simp [FrameAccGD.getCovVect, hc0, h]
      · simp [FrameAccGD.getCovVect, hc0, h]
    · rcases h : s.covComputed with _ | _
      · simp [FrameAccGD.getCovVect, hc0, h]
      · simp [FrameAccGD.getCovVect, hc0, h, hC.1 h]
    · rcases h : s.stdComputed with _ | _
      · simp [FrameAccGD.getStdVect, hc0, h]
      · simp [FrameAccGD.getStdVect, hc0, h, hC.2 h]
    · rcases h : s.stdComputed with _ | _
      · simp [FrameAccGD.getStdVect, hc0, h]
      · simp [FrameAccGD.getStdVect, hc0, h]
    · rcases h : s.stdComputed with _ | _
      · simp [FrameAccGD.getStdVect, hc0, h]
      · simp [FrameAccGD.getStdVect, hc0, h, hC.2 h]

theorem cache_state_machine_witness :
    (((FrameAccGD.init 1).accumulate [(2:ℚ)]).1.Reachable ∧
      0 < ((FrameAccGD.init 1).accumulate [(2:ℚ)]).1.count) ∧
    ((FrameAccGD.init 1).accumulate [(2:ℚ)]).1.getCovVect.1 =
      Except.ok ((FrameAccGD.init 1).accumulate [(2:ℚ)]).1.covOf :=
  ⟨⟨FrameAccGD.Reachable.accumulate (FrameAccGD.Reachable.init 1) rfl,
      by decide⟩,
    ((cache_state_machine 1 ((FrameAccGD.init 1).accumulate [(2:ℚ)]).1
      (FrameAccGD.init 1) [(2:ℚ)]
      (FrameAccGD.Reachable.accumulate (FrameAccGD.Reachable.init 1) rfl)).2.2.2.2
      (by decide)).1⟩

/-! ### Claims about the exception facility -/

theorem string_append_ne_empty (s t : String) (h : s.length ≠ 0) :
    s ++ t ≠ "" := by
  intro he
  have hlen : (s ++ t).length = 0 := by rw [he]; rfl
  rw [String.length_append] at hlen
  omega

/-- Claim C9: the `IOException` copy constructor preserves `msg`,
`sourceFile` and `line` but does not copy `fileName`, which is left
default-initialized to the empty string; consequently `toString()` of
the copy reports an empty file name, unlike the primary constructors,
which store the given file name. -/
theorem ioException_copy_drops_fileName (env : TraceEnv) (e : IOExceptionS)
    (objHeader msg sourceFile f callerName : String) (line : Int) :
    (ioExceptionCopy env e).msg = e.msg ∧
    (ioExceptionCopy env e).sourceFile = e.sourceFile ∧
    (ioExceptionCopy env e).line = e.line ∧
    (ioExceptionCopy env e).fileName = "" ∧
    ioExceptionToString objHeader (ioExceptionCopy env e) =
      exceptionToString objHeader (ioExceptionCopy env e).toExceptionS
        ++ "\n  fileName =  " ∧
    (ioExceptionMk env msg sourceFile line f).fileName = f ∧
    (ioExceptionMk5 env msg sourceFile line f callerName).fileName = f := by
  refine ⟨rfl, rfl, rfl, rfl, ?_, rfl, rfl⟩
  show exceptionToString objHeader (ioExceptionCopy env e).toExceptionS
    ++ "\n  fileName =  " ++ "" = _
  rw [String.append_empty]

/-- Claim C10: `Exception::stackTrace(callerName)` returns the empty
string exactly when the caller is `EOFException` — so every
`EOFException` is constructed with an empty trace — and for every other
caller the result is non-empty and begins with either the Windows
unavailability notice or the gdb header, before any captured output. -/
theorem stackTrace_eof_empty (env : TraceEnv) (c msg sourceFile f : String)
    (line : Int) :
    (c = "EOFException" → stackTrace env c = "") ∧
    (eofExceptionMk env msg sourceFile line f).trace = "" ∧
    (c ≠ "EOFException" →
      stackTrace env c ≠ "" ∧
      ((env.isWindows = true ∧ stackTrace env c = winNotice) ∨
       (env.isWindows = false ∧
        ∃ rest, stackTrace env c = gdbHeader ++ rest))) := by
  refine ⟨?_, ?_, ?_⟩
  · intro h
    simp [stackTrace, h]
  · show stackTrace env "EOFException" = ""
    simp [stackTrace]
  · intro h
    rcases hw : env.isWindows with _ | _
    · constructor
      · unfold stackTrace
        rw [if_neg h, hw]
        simp only [Bool.false_eq_true, if_false]
        exact string_append_ne_empty _ _ (by decide)
      · right
        refine ⟨rfl, ?_⟩
        have hst : stackTrace env c = gdbHeader ++
            (("gdb -batch -ex=bt " ++ env.exePath ++ " " ++ toString env.pid)
              ++ "]\n" ++ String.join env.gdbOutput) := by
          unfold stackTrace
          rw [if_neg h, hw]
          simp
        exact ⟨_, hst⟩
    · constructor
      · unfold stackTrace
        rw [if_neg h, hw]
        simp only [if_true]
        decide
      · left
        refine ⟨rfl, ?_⟩
        unfold stackTrace
        rw [if_neg h, hw]
        simp

theorem stackTrace_eof_empty_witness :
    stackTrace ⟨false, "/bin/prog", 42, ["line1\n"]⟩ "EOFException" = "" ∧
    ("IOException" ≠ "EOFException" ∧
      stackTrace ⟨false, "/bin/prog", 42, ["line1\n"]⟩ "IOException" ≠ "") :=
  ⟨(stackTrace_eof_empty ⟨false, "/bin/prog", 42, ["line1\n"]⟩
      "EOFException" "m" "s" "f" 1).1 rfl,
    by decide,
    ((stackTrace_eof_empty ⟨false, "/bin/prog", 42, ["line1\n"]⟩
      "IOException" "m" "s" "f" 1).2.2 (by decide)).1⟩
